import Mathlib

/-!
# gh-polls: the poll record and its four store operations

A shallow embedding of `internal/poll/poll.go`.  The package talks to one DynamoDB
table through four requests (`PutItem`, `DeleteItem`, `GetItem`, `UpdateItem`); the
table is modelled as a function from the key attribute `id` to the remaining
attributes of the item stored under it, and every request is one atomic step on it.

Conventions of the model:

* A request may be cut short by an error raised by the transport or by the service
  before the request is applied (network failure, throttling, request validation,
  size limits).  That error is the explicit argument `fault`; `none` means the
  request reaches the table and is evaluated against the stored item.
* Items hold the attributes this package writes, with the types it writes them:
  `user` (S), `votes` (N), `voters` (SS) and `options` (M of N).  The store has no
  empty sets, so an absent `voters` attribute and the empty list coincide; an absent
  and an empty `options` map are observed alike by every request of this package.
* Go maps are association lists with at most one entry per key; a nil map or slice
  and an empty one are identified.
-/

namespace poll

/-! ## Go values -/

/-- Go `error` values met by the package: `errors.New` values, the SDK's
`awserr.Error` (a code and a message) and `errors.Wrap`. -/
inductive GoError where
  | New (text : String)
  | aws (code message : String)
  | Wrap (cause : GoError) (message : String)
  deriving DecidableEq, Repr

/-- The method `Error()`: the text of an error.  An `awserr.Error` prints as
`code: message` (the SDK appends status code and request id, which never removes
the code from the text); a wrapped error prints as `message: cause`. -/
def GoError.Error : GoError → String
  | .New text => text
  | .aws code message => code ++ ": " ++ message
  | .Wrap cause message => message ++ ": " ++ cause.Error

deriving instance DecidableEq for Except

/-- Source: `ErrAlreadyVoted = errors.New("already voted")`. -/
def ErrAlreadyVoted : GoError := .New "already voted"

/-- Go `strings.Contains(s, substr)`: `substr` occurs in `s`. -/
def strings.Contains (s substr : String) : Bool :=
  s.data.tails.any (fun t => substr.data.isPrefixOf t)

/-- Go `m[k]` with the comma-ok form, on a map held as an association list. -/
def mapGet (m : List (String × Int)) (k : String) : Option Int :=
  match m with
  | [] => none
  | (k', v) :: rest => if k' = k then some v else mapGet rest k

/-- Go `m[k] = v`: replaces the entry of `k` or adds one. -/
def mapSet (m : List (String × Int)) (k : String) (v : Int) : List (String × Int) :=
  match m with
  | [] => [(k, v)]
  | (k', v') :: rest => if k' = k then (k, v) :: rest else (k', v') :: mapSet rest k v

/-- The keys of a map. -/
def mapKeys (m : List (String × Int)) : List String := m.map Prod.fst

/-- The sum of the values of a map. -/
def mapSum (m : List (String × Int)) : Int := (m.map Prod.snd).sum

/-- Source: `type Poll struct`.  `Options` is the exported tally map, `options` the
unexported list of names given to `New`. -/
structure Poll where
  ID : String
  User : String
  Votes : Int
  Voters : List String
  Options : List (String × Int)
  options : List String
  deriving DecidableEq, Repr

/-- Source: `New(user, options)`.  The identifier returned by `newID()` (a ULID drawn
from the clock and the random source) is the argument `id`. -/
def New (id : String) (user : String) (options : List String) : Poll :=
  { ID := id, User := user, Votes := 0, Voters := [], Options := [], options := options }

/-! ## The table -/

/-- The attributes of a stored item other than its key `id`. -/
structure Item where
  user : Option String
  votes : Option Int
  voters : List String
  options : List (String × Int)
  deriving DecidableEq, Repr

/-- The table `polls`: the item stored under each `id`, if any. -/
abbrev Table := String → Option Item

/-- The table with no items. -/
def emptyTable : Table := fun _ => none

/-- The store's error for a failed condition expression. -/
def conditionalCheckFailed : GoError :=
  .aws "ConditionalCheckFailedException" "The conditional request failed"

/-- The store's error for an update expression whose operand path is not in the item. -/
def missingAttribute : GoError :=
  .aws "ValidationException"
    "The provided expression refers to an attribute that does not exist in the item"

/-- Request `PutItem`: the item replaces whatever is stored under its key. -/
def client.PutItem (fault : Option GoError) (db : Table) (id : String) (item : Item) :
    Table × Option GoError :=
  match fault with
  | some e => (db, some e)
  | none => (Function.update db id (some item), none)

/-- Request `DeleteItem`: the item under the key is removed; a missing item is not an
error. -/
def client.DeleteItem (fault : Option GoError) (db : Table) (id : String) :
    Table × Option GoError :=
  match fault with
  | some e => (db, some e)
  | none => (Function.update db id none, none)

/-- Request `GetItem` with `ConsistentRead`: the item under the key as last written,
or no item. -/
def client.GetItem (fault : Option GoError) (db : Table) (id : String) :
    Except GoError (Option Item) :=
  match fault with
  | some e => .error e
  | none => .ok (db id)

/-- The condition expression of `Vote`, `not contains(voters, :voter)`, evaluated on
the stored item.  `contains` is false on an attribute that is absent, and a key with
no item is an item with no attributes. -/
def ConditionExpression (item : Option Item) (voter : String) : Bool :=
  match item with
  | none => true
  | some it => !(it.voters.contains voter)

/-- The action `ADD voters :voter_set` on a string set: the union. -/
def addToSet (voters voter_set : List String) : List String :=
  voter_set.foldl (fun acc v => if acc.contains v then acc else acc ++ [v]) voters

/-- The update expression of `Vote`,
`ADD votes :votes, voters :voter_set SET #options.#option = #options.#option + :votes`,
evaluated on the stored item.  The operand `#options.#option` has to name an
attribute of the item, otherwise the request is rejected; `ADD` on an absent number
starts from zero and on an absent set from the empty set. -/
def UpdateExpression (item : Option Item) (votes : Int) (voter_set : List String)
    (option : String) : Except GoError Item :=
  match item with
  | none => .error missingAttribute
  | some it =>
    match mapGet it.options option with
    | none => .error missingAttribute
    | some n =>
      .ok { user := it.user
            votes := some (it.votes.getD 0 + votes)
            voters := addToSet it.voters voter_set
            options := mapSet it.options option (n + votes) }

/-- Request `UpdateItem` as issued by `Vote`: condition and update are evaluated on
the stored item and applied as one indivisible step; a failed condition or a rejected
expression leaves the table as it was. -/
def client.UpdateItem (fault : Option GoError) (db : Table) (id : String) (votes : Int)
    (voter_set : List String) (voter : String) (option : String) :
    Table × Option GoError :=
  match fault with
  | some e => (db, some e)
  | none =>
    if ConditionExpression (db id) voter then
      match UpdateExpression (db id) votes voter_set option with
      | .ok item => (Function.update db id (some item), none)
      | .error e => (db, some e)
    else (db, some conditionalCheckFailed)

/-- Decoding of an N attribute into a Go `int` (`strconv.ParseInt` at 64 bits). -/
def decodeNumber (n : Int) : Except GoError Int :=
  if -(2 ^ 63 : Int) ≤ n ∧ n < (2 ^ 63 : Int) then .ok n
  else .error (.New "strconv.ParseInt: value out of range")

/-- Decoding of an M attribute into a Go map: the destination map is kept and every
entry of the attribute is stored into it (Go visits the entries in no fixed order;
here the entries are stored from the last to the first). -/
def decodeMap (m : List (String × Int)) (dst : List (String × Int)) :
    Except GoError (List (String × Int)) :=
  match m with
  | [] => .ok dst
  | (k, v) :: rest =>
    match decodeMap rest dst, decodeNumber v with
    | .error e, _ => .error e
    | .ok _, .error e => .error e
    | .ok acc, .ok n => .ok (mapSet acc k n)

/-- Decoding into an `int` field: an absent attribute leaves the field as it was. -/
def decodeField (attr : Option Int) (field : Int) : Except GoError Int :=
  match attr with
  | none => .ok field
  | some n => decodeNumber n

/-- SDK `dynamodbattribute.UnmarshalMap(res.Item, &p)`.  The decoder visits the
attributes of the item and stores each into the field tagged with its name; a field
whose attribute is absent is not touched, and an item with no attributes (the answer
for a missing key) is not decoded at all.  The attribute `id` is the key that was
asked for, so `ID` keeps its value. -/
def UnmarshalMap (item : Option Item) (p : Poll) : Except GoError Poll :=
  match item with
  | none => .ok p
  | some it =>
    match decodeField it.votes p.Votes, decodeMap it.options p.Options with
    | .error e, _ => .error e
    | .ok _, .error e => .error e
    | .ok votes, .ok opts =>
      .ok { ID := p.ID
            User := it.user.getD p.User
            Votes := votes
            Voters := if it.voters.isEmpty then p.Voters else it.voters
            Options := opts
            options := p.options }

/-! ## The operations -/

/-- Source: `func (p *Poll) Create() error`.  The item has the key `id`, the owner
under `user` and, under `options`, the map built by the loop over `p.options`. -/
def Poll.Create (fault : Option GoError) (p : Poll) (db : Table) : Table × Option GoError :=
  let opts := p.options.foldl (fun m name => mapSet m name 0) []
  let item : Item := { user := some p.User, votes := none, voters := [], options := opts }
  client.PutItem fault db p.ID item

/-- Source: `func (p *Poll) Remove() error`. -/
def Poll.Remove (fault : Option GoError) (p : Poll) (db : Table) : Table × Option GoError :=
  client.DeleteItem fault db p.ID

/-- Source: `func (p *Poll) Load() error`.  The result is the error or the poll value
as left by a successful call. -/
def Poll.Load (fault : Option GoError) (p : Poll) (db : Table) : Except GoError Poll :=
  match client.GetItem fault db p.ID with
  | .error err => .error (.Wrap err "getting item")
  | .ok res =>
    match UnmarshalMap res p with
    | .error err => .error (.Wrap err "unmarshaling item")
    | .ok q => .ok q

/-- Source: `func (p *Poll) Vote(userID, option string) error`.  The request carries
the key `p.ID`, the values `:votes` = 1, `:voter_set` = the set of `userID` alone and
`:voter` = `userID`, and the name `#option` = `option`; an error whose text contains
`ConditionalCheckFailedException` is replaced by `ErrAlreadyVoted`. -/
def Poll.Vote (fault : Option GoError) (p : Poll) (userID option : String) (db : Table) :
    Table × Option GoError :=
  match client.UpdateItem fault db p.ID 1 [userID] userID option with
  | (db', some err) =>
    if strings.Contains err.Error "ConditionalCheckFailedException" then
      (db', some ErrAlreadyVoted)
    else (db', some err)
  | (db', none) => (db', none)

/-- A finite run of `Vote` calls, each with its own fault, poll value, user and option
name, applied to the table one after the other. -/
def runVotes (calls : List (Option GoError × Poll × String × String)) (db : Table) : Table :=
  calls.foldl (fun t c => (Poll.Vote c.1 c.2.1 c.2.2.1 c.2.2.2 t).1) db

/-- Calls `Vote(u, o)` of one user, each on its own poll value and with its own option
name, taken by the store in the order of the list; the result is the final table and
the error returned by each call. -/
def voteAll (u : String) (calls : List (Poll × String)) (db : Table) :
    Table × List (Option GoError) :=
  match calls with
  | [] => (db, [])
  | c :: rest =>
    let r := Poll.Vote none c.1 u c.2 db
    let rs := voteAll u rest r.1
    (rs.1, r.2 :: rs.2)

/-- The consistency of a stored record with the record written by `Create`: the vote
count (absent counting as 0) is the number of voters and the sum of the tallies, the
voters are pairwise distinct, and option keys and owner are those of the created
record. -/
def Consistent (created it : Item) : Prop :=
  it.votes.getD 0 = (it.voters.length : Int) ∧ it.votes.getD 0 = mapSum it.options ∧
    it.voters.Nodup ∧ mapKeys it.options = mapKeys created.options ∧ it.user = created.user

/-! ## Sample data -/

/-- A poll of `alice` with the options `a` and `b`. -/
def samplePoll : Poll := New "p1" "alice" ["a", "b"]

/-- The table after `samplePoll` has been created in the empty table. -/
def createdTable : Table := (Poll.Create none samplePoll emptyTable).1

/-- The table after `u1` has voted for `a` in `createdTable`. -/
def votedTable : Table := (Poll.Vote none samplePoll "u1" "a" createdTable).1

/-- The item of `samplePoll` in `votedTable`. -/
def votedItem : Item :=
  { user := some "alice", votes := some 1, voters := ["u1"], options := [("a", 1), ("b", 0)] }

/-- The item of `samplePoll` in `createdTable`. -/
def createdItem : Item :=
  { user := some "alice", votes := none, voters := [], options := [("a", 0), ("b", 0)] }

/-- A poll value holding stale fields under the id of `samplePoll`. -/
def stalePoll : Poll :=
  { ID := "p1", User := "bob", Votes := 7, Voters := ["u9"], Options := [("z", 3)],
    options := [] }

/-- The table after `samplePoll` has been removed from `votedTable`. -/
def removedTable : Table := (Poll.Remove none samplePoll votedTable).1

/-- The poll value left by `Load` on a value carrying only the id, in `votedTable`. -/
def loadedPoll : Poll :=
  { ID := "p1", User := "alice", Votes := 1, Voters := ["u1"],
    Options := [("b", 0), ("a", 1)], options := [] }

/-- The poll value left by `Load` on `stalePoll` in `createdTable`. -/
def mergedPoll : Poll :=
  { ID := "p1", User := "alice", Votes := 7, Voters := ["u9"],
    Options := [("z", 3), ("b", 0), ("a", 0)], options := [] }

/-- The numbers that fit a Go `int`. -/
def fitsInt (n : Int) : Prop := -(2 ^ 63 : Int) ≤ n ∧ n < (2 ^ 63 : Int)

/-- Three calls on the sample poll: for a, for b on a value carrying only the id, and
for a again. -/
def threeCalls : List (Poll × String) :=
  [(samplePoll, "a"), (New "p1" "" [], "b"), (samplePoll, "a")]

/-- A poll value carrying the id p1 together with fields of an earlier use. -/
def carrierPoll : Poll :=
  { ID := "p1", User := "carol", Votes := 5, Voters := ["u7"], Options := [("w", 2)],
    options := [] }

/-- A transport error whose text quotes the name of the conditional-check failure. -/
def quotingFault : GoError :=
  .aws "RequestError" "send request failed after ConditionalCheckFailedException retry"

/-! ## Lemmas on maps and sets -/

theorem mapGet_mapSet_same (m : List (String × Int)) (k : String) (v : Int) :
    mapGet (mapSet m k v) k = some v := by
  induction m with
  | nil => simp [mapSet, mapGet]
  | cons hd tl ih =>
    obtain ⟨k', v'⟩ := hd
    by_cases h : k' = k <;> simp [mapSet, mapGet, h, ih]

theorem mapGet_mapSet_other (m : List (String × Int)) (k j : String) (v : Int) (h : j ≠ k) :
    mapGet (mapSet m k v) j = mapGet m j := by
  induction m with
  | nil => simp [mapSet, mapGet, h.symm]
  | cons hd tl ih =>
    obtain ⟨k', v'⟩ := hd
    by_cases h1 : k' = k
    · subst h1
      simp [mapSet, mapGet, h.symm]
    · by_cases h2 : k' = j
      · subst h2
        simp [mapSet, mapGet, h1]
      · simp [mapSet, mapGet, h1, h2, ih]

theorem mapGet_isSome_iff (m : List (String × Int)) (k : String) :
    k ∈ mapKeys m ↔ ∃ n, mapGet m k = some n := by
  induction m with
  | nil => simp [mapKeys, mapGet]
  | cons hd tl ih =>
    obtain ⟨k', v'⟩ := hd
    by_cases h : k' = k
    · simp [mapKeys, mapGet, h]
    · have h' : ¬ k = k' := fun e => h e.symm
      simpa [mapKeys, mapGet, h, h'] using ih

theorem mapGet_eq_none_iff (m : List (String × Int)) (k : String) :
    mapGet m k = none ↔ k ∉ mapKeys m := by
  rw [mapGet_isSome_iff]
  cases mapGet m k <;> simp

theorem mapKeys_mapSet_of_get (m : List (String × Int)) (k : String) (n v : Int)
    (h : mapGet m k = some n) : mapKeys (mapSet m k v) = mapKeys m := by
  induction m with
  | nil => simp [mapGet] at h
  | cons hd tl ih =>
    obtain ⟨k', v'⟩ := hd
    by_cases h1 : k' = k
    · simp [mapSet, mapKeys, h1]
    · simp only [mapGet, h1, if_false] at h
      have := ih h
      simp only [mapKeys] at this
      simp [mapSet, mapKeys, h1, this]

theorem mapSum_mapSet_of_get (m : List (String × Int)) (k : String) (n v : Int)
    (h : mapGet m k = some n) : mapSum (mapSet m k v) = mapSum m - n + v := by
  induction m with
  | nil => simp [mapGet] at h
  | cons hd tl ih =>
    obtain ⟨k', v'⟩ := hd
    by_cases h1 : k' = k
    · simp only [mapGet, h1, if_true, Option.some.injEq] at h
      subst h
      simp only [mapSet, h1, if_true, mapSum, List.map_cons, List.sum_cons]
      ring
    · simp only [mapGet, h1, if_false] at h
      have := ih h
      simp only [mapSum] at this
      simp only [mapSet, h1, if_false, mapSum, List.map_cons, List.sum_cons, this]
      ring

theorem addToSet_singleton (voters : List String) (u : String) (h : u ∉ voters) :
    addToSet voters [u] = voters ++ [u] := by
  simp [addToSet, h]

/-! ## Lemmas on `Vote` -/

theorem contains_conditionalCheckFailed :
    strings.Contains conditionalCheckFailed.Error "ConditionalCheckFailedException" = true := by
  decide

theorem contains_missingAttribute :
    strings.Contains missingAttribute.Error "ConditionalCheckFailedException" = false := by
  decide

theorem Vote_of_voter (p : Poll) (u o : String) (db : Table) (it : Item)
    (hit : db p.ID = some it) (hu : u ∈ it.voters) :
    Poll.Vote none p u o db = (db, some ErrAlreadyVoted) := by
  simp [Poll.Vote, client.UpdateItem, ConditionExpression, hit, hu,
    contains_conditionalCheckFailed]

theorem Vote_of_option (p : Poll) (u o : String) (db : Table) (it : Item) (n : Int)
    (hit : db p.ID = some it) (hu : u ∉ it.voters) (ho : mapGet it.options o = some n) :
    Poll.Vote none p u o db =
      (Function.update db p.ID (some
        { user := it.user
          votes := some (it.votes.getD 0 + 1)
          voters := it.voters ++ [u]
          options := mapSet it.options o (n + 1) }), none) := by
  simp [Poll.Vote, client.UpdateItem, ConditionExpression, UpdateExpression, hit, hu, ho,
    addToSet_singleton]

theorem Vote_of_missing_option (p : Poll) (u o : String) (db : Table) (it : Item)
    (hit : db p.ID = some it) (hu : u ∉ it.voters) (ho : mapGet it.options o = none) :
    Poll.Vote none p u o db = (db, some missingAttribute) := by
  simp [Poll.Vote, client.UpdateItem, ConditionExpression, UpdateExpression, hit, hu, ho,
    contains_missingAttribute]

theorem Vote_of_no_item (p : Poll) (u o : String) (db : Table) (hit : db p.ID = none) :
    Poll.Vote none p u o db = (db, some missingAttribute) := by
  simp [Poll.Vote, client.UpdateItem, ConditionExpression, UpdateExpression, hit,
    contains_missingAttribute]

theorem Vote_of_fault (e : GoError) (p : Poll) (u o : String) (db : Table) :
    (Poll.Vote (some e) p u o db).1 = db := by
  simp only [Poll.Vote, client.UpdateItem]
  split <;> rfl

/-- What a `Vote` call does to the table: nothing, or the one update of the record of
the poll. -/
theorem Vote_table_cases (fault : Option GoError) (p : Poll) (u o : String) (db : Table) :
    (Poll.Vote fault p u o db).1 = db ∨
    ∃ it n, db p.ID = some it ∧ u ∉ it.voters ∧ mapGet it.options o = some n ∧
      (Poll.Vote fault p u o db).1 = Function.update db p.ID (some
        { user := it.user
          votes := some (it.votes.getD 0 + 1)
          voters := it.voters ++ [u]
          options := mapSet it.options o (n + 1) }) := by
  cases fault with
  | some e => exact Or.inl (Vote_of_fault e p u o db)
  | none =>
    cases hit : db p.ID with
    | none => exact Or.inl (by rw [Vote_of_no_item p u o db hit])
    | some it =>
      by_cases hu : u ∈ it.voters
      · exact Or.inl (by rw [Vote_of_voter p u o db it hit hu])
      · cases ho : mapGet it.options o with
        | none => exact Or.inl (by rw [Vote_of_missing_option p u o db it hit hu ho])
        | some n => exact Or.inr ⟨it, n, rfl, hu, ho, by rw [Vote_of_option p u o db it n hit hu ho]⟩

theorem Consistent_step (created : Item) (id : String) (fault : Option GoError) (p : Poll)
    (u o : String) (db : Table) (h : ∃ it, db id = some it ∧ Consistent created it) :
    ∃ it, (Poll.Vote fault p u o db).1 id = some it ∧ Consistent created it := by
  obtain ⟨it, hit, hc⟩ := h
  rcases Vote_table_cases fault p u o db with h1 | ⟨it2, n, hit2, hu, ho, h1⟩
  · exact ⟨it, by rw [h1]; exact hit, hc⟩
  · rw [h1]
    by_cases hid : id = p.ID
    · subst hid
      rw [hit] at hit2
      cases hit2
      refine ⟨_, Function.update_same _ _ _, ?_⟩
      obtain ⟨c1, c2, c3, c4, c5⟩ := hc
      refine ⟨?_, ?_, ?_, ?_, c5⟩
      · simp only [Option.getD_some, List.length_append, List.length_singleton]
        rw [c1]
        push_cast
        ring
      · simp only [Option.getD_some]
        rw [mapSum_mapSet_of_get _ _ n _ ho, c2]
        ring
      · exact List.Nodup.append c3 (List.nodup_singleton u) (by simpa using hu)
      · simp only
        rw [mapKeys_mapSet_of_get _ _ n _ ho, c4]
    · exact ⟨it, by rw [Function.update_noteq hid]; exact hit, hc⟩

theorem Consistent_runVotes (created : Item) (id : String)
    (calls : List (Option GoError × Poll × String × String)) (db : Table)
    (h : ∃ it, db id = some it ∧ Consistent created it) :
    ∃ it, runVotes calls db id = some it ∧ Consistent created it := by
  induction calls generalizing db with
  | nil => exact h
  | cons c rest ih =>
    simp only [runVotes, List.foldl_cons]
    exact ih _ (Consistent_step created id c.1 c.2.1 c.2.2.1 c.2.2.2 db h)

theorem mapSum_create (names : List String) (acc : List (String × Int)) (h : mapSum acc = 0)
    (h0 : ∀ k n, mapGet acc k = some n → n = 0) :
    mapSum (names.foldl (fun m name => mapSet m name 0) acc) = 0 ∧
      ∀ k n, mapGet (names.foldl (fun m name => mapSet m name 0) acc) k = some n → n = 0 := by
  induction names generalizing acc with
  | nil => exact ⟨h, h0⟩
  | cons x xs ih =>
    simp only [List.foldl_cons]
    apply ih
    · cases hx : mapGet acc x with
      | none =>
        have : ∀ (m : List (String × Int)), mapGet m x = none → mapSum (mapSet m x 0) = mapSum m := by
          intro m
          induction m with
          | nil => intro _; simp [mapSet, mapSum]
          | cons hd tl ih2 =>
            obtain ⟨k', v'⟩ := hd
            intro hm
            by_cases hk : k' = x
            · simp [mapGet, hk] at hm
            · simp only [mapGet, hk, if_false] at hm
              have := ih2 hm
              simp only [mapSum] at this
              simp [mapSet, hk, mapSum, this]
        rw [this acc hx, h]
      | some n =>
        rw [mapSum_mapSet_of_get _ _ n _ hx, h0 x n hx, h]
        ring
    · intro k n hk
      by_cases hkx : k = x
      · subst hkx
        rw [mapGet_mapSet_same] at hk
        cases hk
        rfl
      · rw [mapGet_mapSet_other _ _ _ _ hkx] at hk
        exact h0 k n hk

theorem mapGet_create (names : List String) (acc : List (String × Int)) (k : String) :
    mapGet (names.foldl (fun m name => mapSet m name 0) acc) k =
      if k ∈ names then some 0 else mapGet acc k := by
  induction names generalizing acc with
  | nil => simp
  | cons x xs ih =>
    simp only [List.foldl_cons]
    rw [ih]
    by_cases hk : k ∈ xs
    · simp [hk]
    · by_cases hkx : k = x
      · subst hkx
        simp [hk, mapGet_mapSet_same]
      · simp [hk, hkx, mapGet_mapSet_other _ _ _ _ hkx]

theorem mapSet_forall (P : Int → Prop) (m : List (String × Int)) (k : String) (v : Int)
    (hm : ∀ e ∈ m, P e.2) (hv : P v) : ∀ e ∈ mapSet m k v, P e.2 := by
  induction m with
  | nil =>
    intro e he
    simp only [mapSet, List.mem_singleton] at he
    subst he
    exact hv
  | cons hd tl ih =>
    obtain ⟨k', v'⟩ := hd
    intro e he
    by_cases hk : k' = k
    · simp only [mapSet, hk, if_true, List.mem_cons] at he
      rcases he with he | he
      · subst he
        exact hv
      · exact hm e (List.mem_cons_of_mem _ he)
    · simp only [mapSet, hk, if_false, List.mem_cons] at he
      rcases he with he | he
      · subst he
        exact hm _ (List.mem_cons_self _ _)
      · exact ih (fun e he => hm e (List.mem_cons_of_mem _ he)) e he

theorem create_forall_zero (names : List String) (acc : List (String × Int))
    (h : ∀ e ∈ acc, e.2 = 0) :
    ∀ e ∈ names.foldl (fun m name => mapSet m name 0) acc, e.2 = 0 := by
  induction names generalizing acc with
  | nil => exact h
  | cons x xs ih =>
    simp only [List.foldl_cons]
    exact ih _ (mapSet_forall (fun n => n = 0) acc x 0 h rfl)

theorem decodeNumber_of_fits (n : Int) (h : fitsInt n) : decodeNumber n = .ok n := by
  unfold decodeNumber
  exact if_pos h

theorem decodeNumber_ok (n r : Int) (h : decodeNumber n = .ok r) : r = n := by
  unfold decodeNumber at h
  split at h
  · cases h
    rfl
  · cases h

theorem decodeMap_of_fits (m dst : List (String × Int)) (h : ∀ e ∈ m, fitsInt e.2) :
    ∃ r, decodeMap m dst = .ok r := by
  induction m with
  | nil => exact ⟨dst, rfl⟩
  | cons hd tl ih =>
    obtain ⟨k, v⟩ := hd
    obtain ⟨r, hr⟩ := ih (fun e he => h e (List.mem_cons_of_mem _ he))
    have hv := decodeNumber_of_fits v (h (k, v) (List.mem_cons_self _ _))
    exact ⟨mapSet r k v, by simp only [decodeMap, hr, hv]⟩

theorem decodeMap_ok (m dst r : List (String × Int)) (h : decodeMap m dst = .ok r) (j : String) :
    mapGet r j = (mapGet m j).orElse (fun _ => mapGet dst j) := by
  induction m generalizing r with
  | nil =>
    simp only [decodeMap, Except.ok.injEq] at h
    subst h
    simp [mapGet]
  | cons hd tl ih =>
    obtain ⟨k, v⟩ := hd
    simp only [decodeMap] at h
    cases hacc : decodeMap tl dst with
    | error e => simp [hacc] at h
    | ok acc =>
      cases hn : decodeNumber v with
      | error e => simp [hacc, hn] at h
      | ok n =>
        simp only [hacc, hn, Except.ok.injEq] at h
        subst h
        have hnv := decodeNumber_ok v n hn
        subst hnv
        by_cases hk : k = j
        · subst hk
          simp [mapGet, mapGet_mapSet_same]
        · have hjk : j ≠ k := fun e => hk e.symm
          rw [mapGet_mapSet_other _ _ _ _ hjk, ih acc hacc]
          simp [mapGet, hk]

theorem voteAll_of_voter (id u : String) (calls : List (Poll × String)) (db : Table)
    (it : Item) (hid : ∀ c ∈ calls, c.1.ID = id) (hit : db id = some it)
    (hu : u ∈ it.voters) :
    voteAll u calls db = (db, List.replicate calls.length (some ErrAlreadyVoted)) := by
  induction calls with
  | nil => rfl
  | cons c rest ih =>
    have hc : db c.1.ID = some it := by rw [hid c (List.mem_cons_self _ _)]; exact hit
    simp only [voteAll, Vote_of_voter c.1 u c.2 db it hc hu,
      ih (fun d hd => hid d (List.mem_cons_of_mem _ hd)), List.length_cons,
      List.replicate_succ]

theorem createdTable_p1 : createdTable samplePoll.ID = some createdItem := by decide

theorem votedTable_p1 : votedTable samplePoll.ID = some votedItem := by decide

/-! ## Vote -/

/-- C1 (vote-once): a user who is in the voters set of the stored record gets
`ErrAlreadyVoted` from `Vote` for every option name and the table is left as it was;
on a fresh poll with options a and b, the vote of u1 for a succeeds, the vote of u1
for b returns `ErrAlreadyVoted`, and the record and a following `Load` show one vote,
a:1, b:0 and the single voter u1. -/
theorem vote_once :
    (∀ (p : Poll) (u o : String) (db : Table) (it : Item),
        db p.ID = some it → u ∈ it.voters →
        Poll.Vote none p u o db = (db, some ErrAlreadyVoted)) ∧
    (∀ (db : Table) (id owner u1 : String),
        (Poll.Vote none (New id owner ["a", "b"]) u1 "a"
            (Poll.Create none (New id owner ["a", "b"]) db).1).2 = none ∧
        (Poll.Vote none (New id owner ["a", "b"]) u1 "b"
            (Poll.Vote none (New id owner ["a", "b"]) u1 "a"
              (Poll.Create none (New id owner ["a", "b"]) db).1).1).2 = some ErrAlreadyVoted ∧
        (Poll.Vote none (New id owner ["a", "b"]) u1 "b"
            (Poll.Vote none (New id owner ["a", "b"]) u1 "a"
              (Poll.Create none (New id owner ["a", "b"]) db).1).1).1 id =
          some { user := some owner, votes := some 1, voters := [u1],
                 options := [("a", 1), ("b", 0)] } ∧
        ∃ q, Poll.Load none (New id "" [])
            (Poll.Vote none (New id owner ["a", "b"]) u1 "b"
              (Poll.Vote none (New id owner ["a", "b"]) u1 "a"
                (Poll.Create none (New id owner ["a", "b"]) db).1).1).1 = .ok q ∧
          q.User = owner ∧ q.Votes = 1 ∧ q.Voters = [u1] ∧
          mapGet q.Options "a" = some 1 ∧ mapGet q.Options "b" = some 0 ∧
          ∀ k, k ≠ "a" → k ≠ "b" → mapGet q.Options k = none) := by
  refine ⟨fun p u o db it hit hu => Vote_of_voter p u o db it hit hu, ?_⟩
  intro db id owner u1
  have hc : (Poll.Create none (New id owner ["a", "b"]) db).1 id =
      some { user := some owner, votes := none, voters := [], options := [("a", 0), ("b", 0)] } := by
    simp [Poll.Create, client.PutItem, New, mapSet]
  have h1 := Vote_of_option (New id owner ["a", "b"]) u1 "a" _ _ 0 hc (by simp)
    (by simp [mapGet])
  have hv : (Poll.Vote none (New id owner ["a", "b"]) u1 "a"
      (Poll.Create none (New id owner ["a", "b"]) db).1).1 id =
      some { user := some owner, votes := some 1, voters := [u1],
             options := [("a", 1), ("b", 0)] } := by
    rw [h1]
    simp [New, mapSet]
  have h2 := Vote_of_voter (New id owner ["a", "b"]) u1 "b" _ _ hv (by simp)
  refine ⟨by rw [h1], by rw [h2], by rw [h2]; exact hv, ?_⟩
  rw [h2]
  simp only [Prod.fst]
  refine ⟨{ ID := id, User := owner, Votes := 1, Voters := [u1],
            Options := [("b", 0), ("a", 1)], options := [] }, ?_, rfl, rfl, rfl, ?_, ?_, ?_⟩
  · have hv' := hv
    simp only [New] at hv' ⊢
    simp [Poll.Load, client.GetItem, hv', UnmarshalMap, decodeField, decodeNumber, decodeMap,
      mapSet]
  · simp [mapGet]
  · simp [mapGet]
  · intro k ha hb
    simp [mapGet, Ne.symm ha, Ne.symm hb]

/-- Witness of C1 on the sample poll: u1 has voted, and votes again. -/
theorem vote_once_witness :
    votedTable samplePoll.ID = some votedItem ∧ "u1" ∈ votedItem.voters ∧
      Poll.Vote none samplePoll "u1" "b" votedTable = (votedTable, some ErrAlreadyVoted) :=
  ⟨votedTable_p1, by decide,
    vote_once.1 samplePoll "u1" "b" votedTable votedItem votedTable_p1 (by decide)⟩

/-- C2 (effect of a successful vote): for a stored record, a user not among its
voters and an option name that is a key of its options map, `Vote` returns nil and the
record afterwards has votes one higher (absent counting as 0), the user added to the
voters, the option tally one higher, and every other tally, the key set, the owner
and the records under other ids as before. -/
theorem vote_effect (p : Poll) (u o : String) (db : Table) (it : Item)
    (hit : db p.ID = some it) (hu : u ∉ it.voters) (ho : o ∈ mapKeys it.options) :
    (Poll.Vote none p u o db).2 = none ∧
    ∃ it', (Poll.Vote none p u o db).1 p.ID = some it' ∧
      it'.votes = some (it.votes.getD 0 + 1) ∧
      it'.voters = it.voters ++ [u] ∧
      (∀ x, x ∈ it'.voters ↔ x ∈ it.voters ∨ x = u) ∧
      (∃ n, mapGet it.options o = some n ∧ mapGet it'.options o = some (n + 1)) ∧
      (∀ k, k ≠ o → mapGet it'.options k = mapGet it.options k) ∧
      mapKeys it'.options = mapKeys it.options ∧
      it'.user = it.user ∧
      ∀ id, id ≠ p.ID → (Poll.Vote none p u o db).1 id = db id := by
  obtain ⟨n, hn⟩ := (mapGet_isSome_iff it.options o).1 ho
  rw [Vote_of_option p u o db it n hit hu hn]
  refine ⟨rfl, _, Function.update_same _ _ _, rfl, rfl, ?_, ⟨n, hn, ?_⟩, ?_, ?_, rfl, ?_⟩
  · intro x
    simp
  · exact mapGet_mapSet_same _ _ _
  · intro k hk
    exact mapGet_mapSet_other _ _ _ _ hk
  · exact mapKeys_mapSet_of_get _ _ n _ hn
  · intro id hid
    exact Function.update_noteq hid _ _

/-- Witness of C2 on the sample poll: u2 votes for b after u1 has voted for a. -/
theorem vote_effect_witness :
    votedTable samplePoll.ID = some votedItem ∧ "u2" ∉ votedItem.voters ∧
      "b" ∈ mapKeys votedItem.options ∧
      (Poll.Vote none samplePoll "u2" "b" votedTable).2 = none :=
  ⟨votedTable_p1, by decide, by decide,
    (vote_effect samplePoll "u2" "b" votedTable votedItem votedTable_p1 (by decide)
      (by decide)).1⟩

/-- C3 (tally/voter consistency): after `Create` and any finite run of `Vote` calls
(any fault, any poll value, any user, any option name), the record of the created poll
is stored, its vote count (absent counting as 0) is the number of its voters, who are
pairwise distinct, and the sum of its option tallies, and its option keys are the keys
written by `Create`, which are the names given to the poll. -/
theorem tally_voter_consistency (db : Table) (p : Poll)
    (calls : List (Option GoError × Poll × String × String)) :
    ∃ created it, (Poll.Create none p db).1 p.ID = some created ∧
      runVotes calls (Poll.Create none p db).1 p.ID = some it ∧
      it.votes.getD 0 = (it.voters.length : Int) ∧ it.voters.Nodup ∧
      it.votes.getD 0 = mapSum it.options ∧
      mapKeys it.options = mapKeys created.options ∧
      ∀ k, k ∈ mapKeys it.options ↔ k ∈ p.options := by
  have hc : (Poll.Create none p db).1 p.ID = some
      { user := some p.User, votes := none, voters := [],
        options := p.options.foldl (fun m name => mapSet m name 0) [] } := by
    simp [Poll.Create, client.PutItem]
  have hsum := (mapSum_create p.options [] (by simp [mapSum]) (by simp [mapGet])).1
  obtain ⟨it, hit, c1, c2, c3, c4, _⟩ := Consistent_runVotes _ p.ID calls _
    ⟨_, hc, ⟨by simp, by simp [hsum], by simp, rfl, rfl⟩⟩
  refine ⟨_, it, hc, hit, c1, c3, c2, c4, ?_⟩
  intro k
  rw [c4, mapGet_isSome_iff, mapGet_create]
  by_cases hk : k ∈ p.options <;> simp [hk, mapGet]

/-! ## Create, Load and Remove -/

/-- C4, as the code has it: `New`, then `Create`, then `Load` on any poll value
carrying the id return nil errors; the loaded value has the owner as `User`, every
given name mapped to 0 in `Options` next to the entries the value held under other
keys, and `Votes` and `Voters` as the value held them before the call, the created
record having neither attribute.  On the created value itself and on a value carrying
only the id that is `Votes` 0, no voters and exactly the given names as keys; for
owner alice and options x, y the loaded value is computed in full. -/
theorem create_load_round_trip (db : Table) (owner : String) (names : List String)
    (p0 : Poll) :
    (Poll.Create none (New p0.ID owner names) db).2 = none ∧
    (∃ q, Poll.Load none p0 (Poll.Create none (New p0.ID owner names) db).1 = .ok q ∧
        q.ID = p0.ID ∧ q.User = owner ∧ q.Votes = p0.Votes ∧ q.Voters = p0.Voters ∧
        (∀ k, mapGet q.Options k = if k ∈ names then some 0 else mapGet p0.Options k) ∧
        (p0.Votes = 0 → p0.Voters = [] → p0.Options = [] →
          q.Votes = 0 ∧ q.Voters = [] ∧
          (∀ k, mapGet q.Options k = if k ∈ names then some 0 else none) ∧
          ∀ k, k ∈ mapKeys q.Options ↔ k ∈ names)) ∧
    Poll.Load none (New "p1" "" []) (Poll.Create none (New "p1" "alice" ["x", "y"]) emptyTable).1 =
      .ok { ID := "p1", User := "alice", Votes := 0, Voters := [],
            Options := [("y", 0), ("x", 0)], options := [] } ∧
    Poll.Load none (New "p1" "alice" ["x", "y"])
        (Poll.Create none (New "p1" "alice" ["x", "y"]) emptyTable).1 =
      .ok { ID := "p1", User := "alice", Votes := 0, Voters := [],
            Options := [("y", 0), ("x", 0)], options := ["x", "y"] } := by
  refine ⟨by simp [Poll.Create, client.PutItem], ?_, by decide, by decide⟩
  have hc : (Poll.Create none (New p0.ID owner names) db).1 p0.ID = some
      { user := some owner, votes := none, voters := [],
        options := names.foldl (fun m name => mapSet m name 0) [] } := by
    simp [Poll.Create, client.PutItem, New]
  have hz := create_forall_zero names [] (by simp)
  obtain ⟨r, hr⟩ := decodeMap_of_fits (names.foldl (fun m name => mapSet m name 0) [])
    p0.Options (fun e he => by rw [hz e he]; unfold fitsInt; norm_num)
  have hget : ∀ k, mapGet r k = if k ∈ names then some 0 else mapGet p0.Options k := by
    intro k
    rw [decodeMap_ok _ _ r hr k, mapGet_create]
    by_cases hk : k ∈ names <;> simp [hk, mapGet]
  refine ⟨{ ID := p0.ID, User := owner, Votes := p0.Votes, Voters := p0.Voters, Options := r,
            options := p0.options }, ?_, rfl, rfl, rfl, rfl, hget, ?_⟩
  · simp [Poll.Load, client.GetItem, hc, UnmarshalMap, decodeField, hr]
  · intro hv hvs ho
    have hget0 : ∀ k, mapGet r k = if k ∈ names then some 0 else none := by
      intro k
      rw [hget k, ho]
      simp [mapGet]
    refine ⟨hv, hvs, hget0, ?_⟩
    intro k
    show k ∈ mapKeys r ↔ k ∈ names
    rw [mapGet_isSome_iff, hget0]
    by_cases hk : k ∈ names <;> simp [hk]

/-- Witness of C4: the poll value carrying only the id p1 is zero-valued, and is loaded
after alice has created the poll with the options x and y. -/
theorem create_load_round_trip_witness :
    (New "p1" "" []).Votes = 0 ∧ (New "p1" "" []).Voters = [] ∧ (New "p1" "" []).Options = [] ∧
      (Poll.Create none (New (New "p1" "" []).ID "alice" ["x", "y"]) emptyTable).2 = none :=
  ⟨by decide, by decide, by decide,
    (create_load_round_trip emptyTable "alice" ["x", "y"] (New "p1" "" [])).1⟩

/-- Counterexample to C4: alice creates the poll p1 with the options x and y; `Load` on
a poll value that carries the id p1 together with 5 votes, the voter u7 and the key w
returns no error and a value that still has 5 votes, the voter u7 and the key w. -/
theorem create_load_stale_counterexample :
    carrierPoll.ID = "p1" ∧
      Poll.Load none carrierPoll (Poll.Create none (New "p1" "alice" ["x", "y"]) emptyTable).1 =
        .ok { ID := "p1", User := "alice", Votes := 5, Voters := ["u7"],
              Options := [("w", 2), ("y", 0), ("x", 0)], options := [] } ∧
      (5 : Int) ≠ 0 ∧ ["u7"] ≠ ([] : List String) ∧
      mapGet [("w", 2), ("y", 0), ("x", 0)] "w" = some 2 ∧ "w" ∉ ["x", "y"] := by
  decide

/-- C5, as the code has it: a successful `Load` of a stored record sets `User`,
`Votes` and `Voters` from the attributes the record has and leaves a field whose
attribute is absent as it was; `Options` gets every entry of the record and keeps
the entries it held under other keys. -/
theorem load_merges (p q : Poll) (db : Table) (r : Item)
    (hr : db p.ID = some r) (hq : Poll.Load none p db = .ok q) :
    q.ID = p.ID ∧ q.User = r.user.getD p.User ∧ q.Votes = r.votes.getD p.Votes ∧
      q.Voters = (if r.voters.isEmpty then p.Voters else r.voters) ∧
      (∀ k, mapGet q.Options k = (mapGet r.options k).orElse (fun _ => mapGet p.Options k)) ∧
      q.options = p.options := by
  simp only [Poll.Load, client.GetItem, hr, UnmarshalMap] at hq
  cases hv : decodeField r.votes p.Votes with
  | error e => simp [hv] at hq
  | ok votes =>
    cases hm : decodeMap r.options p.Options with
    | error e => simp [hv, hm] at hq
    | ok opts =>
      simp only [hv, hm, Except.ok.injEq] at hq
      subst hq
      refine ⟨rfl, rfl, ?_, rfl, fun k => decodeMap_ok _ _ opts hm k, rfl⟩
      simp only
      cases hrv : r.votes with
      | none =>
        simp only [hrv, decodeField, Except.ok.injEq] at hv
        simp [hv]
      | some n =>
        simp only [hrv, decodeField] at hv
        simp [decodeNumber_ok n votes hv]

/-- Witness of C5: the stale poll value is loaded from the freshly created record. -/
theorem load_merges_witness :
    createdTable stalePoll.ID = some createdItem ∧
      Poll.Load none stalePoll createdTable = .ok mergedPoll ∧
      mergedPoll.Votes = createdItem.votes.getD stalePoll.Votes :=
  ⟨by decide, by decide,
    (load_merges stalePoll mergedPoll createdTable createdItem (by decide) (by decide)).2.2.1⟩

/-- Counterexample to C5: the record of the freshly created sample poll has no votes
attribute, no voters and no key z, yet after a successful `Load` the stale poll value
still has 7 votes, the voter u9 and the key z. -/
theorem load_overwrites_counterexample :
    createdTable stalePoll.ID = some createdItem ∧
      Poll.Load none stalePoll createdTable = .ok mergedPoll ∧
      mergedPoll.Votes ≠ createdItem.votes.getD 0 ∧ mergedPoll.Voters ≠ createdItem.voters ∧
      mapGet createdItem.options "z" = none ∧ mapGet mergedPoll.Options "z" = some 3 := by
  decide

/-- C6, as the code has it: `Load` of an id with no stored record, be it never
created or removed by `Remove`, returns no error and leaves the poll value exactly as
it was, so zero-valued if it carried only the id. -/
theorem load_missing (p : Poll) (db : Table) (h : db p.ID = none) :
    Poll.Load none p db = .ok p ∧
    (∀ (t : Table) (q : Poll), q.ID = p.ID → Poll.Load none p (Poll.Remove none q t).1 = .ok p) ∧
    ∀ (t : Table) (q : Poll), q.ID = p.ID →
      Poll.Load none (New p.ID "" []) (Poll.Remove none q t).1 = .ok (New p.ID "" []) := by
  refine ⟨by simp [Poll.Load, client.GetItem, h, UnmarshalMap], ?_, ?_⟩
  · intro t q hq
    simp [Poll.Load, client.GetItem, Poll.Remove, client.DeleteItem, hq, UnmarshalMap]
  · intro t q hq
    simp [Poll.Load, client.GetItem, Poll.Remove, client.DeleteItem, hq, UnmarshalMap, New]

/-- Witness of C6: the loaded poll value is loaded again after the removal. -/
theorem load_missing_witness :
    removedTable loadedPoll.ID = none ∧ Poll.Load none loadedPoll removedTable = .ok loadedPoll :=
  ⟨by decide, (load_missing loadedPoll removedTable (by decide)).1⟩

/-- Counterexample to C6: a poll value loaded while the record existed still shows
owner, vote, voter and tallies of the record after `Remove` and a second `Load`. -/
theorem load_after_remove_counterexample :
    Poll.Load none (New "p1" "" []) votedTable = .ok loadedPoll ∧
      (Poll.Remove none samplePoll votedTable).2 = none ∧
      removedTable "p1" = none ∧
      Poll.Load none loadedPoll removedTable = .ok loadedPoll ∧
      loadedPoll.User = "alice" ∧ loadedPoll.Votes = 1 ∧ loadedPoll.Voters = ["u1"] ∧
      mapGet loadedPoll.Options "a" = some 1 := by
  decide

/-- C7 (create overwrites silently): in every table, `Create` returns nil and the
record under the id is then the owner, no votes attribute, no voters and exactly the
names of the poll as option keys, each with tally 0, whatever was stored before;
records under other ids are as before.  In the table where u1 has voted, creating the
sample poll again leaves the freshly created record. -/
theorem create_overwrites (p : Poll) (db : Table) :
    (Poll.Create none p db).2 = none ∧
    (∃ it, (Poll.Create none p db).1 p.ID = some it ∧
      it.user = some p.User ∧ it.votes = none ∧ it.voters = [] ∧
      (∀ k, mapGet it.options k = if k ∈ p.options then some 0 else none) ∧
      ∀ k, k ∈ mapKeys it.options ↔ k ∈ p.options) ∧
    (∀ id, id ≠ p.ID → (Poll.Create none p db).1 id = db id) ∧
    votedTable samplePoll.ID = some votedItem ∧
    (Poll.Create none samplePoll votedTable).1 samplePoll.ID = some createdItem := by
  refine ⟨by simp [Poll.Create, client.PutItem],
    ⟨{ user := some p.User, votes := none, voters := [],
       options := p.options.foldl (fun m name => mapSet m name 0) [] },
      ?_, rfl, rfl, rfl, ?_, ?_⟩, ?_, by decide, by decide⟩
  · simp [Poll.Create, client.PutItem]
  · intro k
    rw [mapGet_create]
    by_cases hk : k ∈ p.options <;> simp [hk, mapGet]
  · intro k
    rw [mapGet_isSome_iff, mapGet_create]
    by_cases hk : k ∈ p.options <;> simp [hk, mapGet]
  · intro id hid
    simp [Poll.Create, client.PutItem, Function.update_noteq hid]

/-- C8 (idempotent delete): in every table, `Remove` returns nil whether or not a
record is stored under the id, no record is stored under the id afterwards, records
under other ids are as before, and a second `Remove` returns nil and leaves the table
of the first. -/
theorem remove_idempotent (p : Poll) (db : Table) :
    (Poll.Remove none p db).2 = none ∧
    (Poll.Remove none p db).1 p.ID = none ∧
    (∀ id, id ≠ p.ID → (Poll.Remove none p db).1 id = db id) ∧
    Poll.Remove none p (Poll.Remove none p db).1 = ((Poll.Remove none p db).1, none) := by
  refine ⟨rfl, ?_, ?_, ?_⟩
  · simp [Poll.Remove, client.DeleteItem]
  · intro id hid
    simp [Poll.Remove, client.DeleteItem, Function.update_noteq hid]
  · simp [Poll.Remove, client.DeleteItem]

/-! ## Error classification and concurrent votes -/

/-- C9, as the code has it: `Vote` leaves the table as the update request left it,
returns nil exactly when the request reports success, returns `ErrAlreadyVoted` for
every error whose text contains `ConditionalCheckFailedException` and the error itself
for every other error; a request that reaches the store is answered with
`ErrAlreadyVoted` exactly when the condition on the voters set fails. -/
theorem vote_error_classification (fault : Option GoError) (p : Poll) (u o : String)
    (db : Table) :
    (Poll.Vote fault p u o db).1 = (client.UpdateItem fault db p.ID 1 [u] u o).1 ∧
    ((Poll.Vote fault p u o db).2 = none ↔
      (client.UpdateItem fault db p.ID 1 [u] u o).2 = none) ∧
    (∀ e, (client.UpdateItem fault db p.ID 1 [u] u o).2 = some e →
      strings.Contains e.Error "ConditionalCheckFailedException" = true →
      (Poll.Vote fault p u o db).2 = some ErrAlreadyVoted) ∧
    (∀ e, (client.UpdateItem fault db p.ID 1 [u] u o).2 = some e →
      strings.Contains e.Error "ConditionalCheckFailedException" = false →
      (Poll.Vote fault p u o db).2 = some e) ∧
    (fault = none →
      ((Poll.Vote fault p u o db).2 = some ErrAlreadyVoted ↔
        ConditionExpression (db p.ID) u = false)) := by
  refine ⟨?_, ?_, ?_, ?_, ?_⟩
  · simp only [Poll.Vote]
    split <;> (try split) <;> simp_all
  · simp only [Poll.Vote]
    split <;> (try split) <;> simp_all
  · intro e he hc
    simp only [Poll.Vote]
    split <;> (try split) <;> simp_all
  · intro e he hc
    simp only [Poll.Vote]
    split <;> (try split) <;> simp_all
  · intro hf
    subst hf
    cases hit : db p.ID with
    | none =>
      rw [Vote_of_no_item p u o db hit]
      simp [ConditionExpression, missingAttribute, ErrAlreadyVoted]
    | some it =>
      by_cases hu : u ∈ it.voters
      · rw [Vote_of_voter p u o db it hit hu]
        simp [ConditionExpression, hu]
      · cases ho : mapGet it.options o with
        | none =>
          rw [Vote_of_missing_option p u o db it hit hu ho]
          simp [ConditionExpression, hu, missingAttribute, ErrAlreadyVoted]
        | some n =>
          rw [Vote_of_option p u o db it n hit hu ho]
          simp [ConditionExpression, hu]

/-- Witness of C9: the rejected vote for an option the sample poll does not have is
returned as the store's own error. -/
theorem vote_error_classification_witness :
    (client.UpdateItem none createdTable samplePoll.ID 1 ["u1"] "u1" "c").2 =
        some missingAttribute ∧
      strings.Contains missingAttribute.Error "ConditionalCheckFailedException" = false ∧
      (Poll.Vote none samplePoll "u1" "c" createdTable).2 = some missingAttribute :=
  ⟨by decide, by decide,
    (vote_error_classification none samplePoll "u1" "c" createdTable).2.2.2.1
      missingAttribute (by decide) (by decide)⟩

/-- Counterexample to C9: the request fails in transit with an error that is not the
conditional-check failure, while u1 has not voted and the condition holds; the text of
the error contains `ConditionalCheckFailedException`, and `Vote` returns
`ErrAlreadyVoted` instead of the error. -/
theorem vote_error_classification_counterexample :
    ConditionExpression (createdTable samplePoll.ID) "u1" = true ∧
      (client.UpdateItem (some quotingFault) createdTable samplePoll.ID 1 ["u1"] "u1" "a").2 =
        some quotingFault ∧
      quotingFault ≠ conditionalCheckFailed ∧
      (Poll.Vote (some quotingFault) samplePoll "u1" "a" createdTable).2 =
        some ErrAlreadyVoted ∧
      some ErrAlreadyVoted ≠ some quotingFault := by
  decide

/-- C10 (concurrent exclusivity): N ≥ 1 calls `Vote` of one user who has not voted,
each on a poll value with the id of the poll and for an existing option, are applied
by the store one at a time in some order, here the order of the list; the call
applied first returns nil, each of the other N - 1 calls returns `ErrAlreadyVoted`,
and the stored vote count is one higher. -/
theorem concurrent_exclusivity (id u : String) (calls : List (Poll × String)) (db : Table)
    (it : Item) (hN : 1 ≤ calls.length) (hit : db id = some it) (hu : u ∉ it.voters)
    (hcalls : ∀ c ∈ calls, c.1.ID = id ∧ c.2 ∈ mapKeys it.options) :
    (voteAll u calls db).2 =
      none :: List.replicate (calls.length - 1) (some ErrAlreadyVoted) ∧
    (voteAll u calls db).2.length = calls.length ∧
    (voteAll u calls db).2.count none = 1 ∧
    (voteAll u calls db).2.count (some ErrAlreadyVoted) = calls.length - 1 ∧
    ∃ it', (voteAll u calls db).1 id = some it' ∧
      it'.votes = some (it.votes.getD 0 + 1) ∧ it'.voters = it.voters ++ [u] := by
  cases calls with
  | nil => simp at hN
  | cons c rest =>
    obtain ⟨hcid, hck⟩ := hcalls c (List.mem_cons_self _ _)
    obtain ⟨n, hn⟩ := (mapGet_isSome_iff it.options c.2).1 hck
    have hit' : db c.1.ID = some it := by rw [hcid]; exact hit
    have h1 := Vote_of_option c.1 u c.2 db it n hit' hu hn
    rw [hcid] at h1
    have h2 := voteAll_of_voter id u rest (Poll.Vote none c.1 u c.2 db).1
      { user := it.user, votes := some (it.votes.getD 0 + 1), voters := it.voters ++ [u],
        options := mapSet it.options c.2 (n + 1) }
      (fun d hd => (hcalls d (List.mem_cons_of_mem _ hd)).1)
      (by rw [h1]; exact Function.update_same _ _ _) (by simp)
    have hres : (voteAll u (c :: rest) db).2 =
        none :: List.replicate rest.length (some ErrAlreadyVoted) := by
      simp only [voteAll, h2]
      rw [h1]
    have hne : (none : Option GoError) ≠ some ErrAlreadyVoted := by simp
    refine ⟨by simpa using hres, by simp [hres], ?_, ?_,
      { user := it.user, votes := some (it.votes.getD 0 + 1), voters := it.voters ++ [u],
        options := mapSet it.options c.2 (n + 1) }, ?_, rfl, rfl⟩
    · rw [hres, List.count_cons_self, List.count_replicate]
      simp
    · rw [hres, List.count_cons_of_ne (Ne.symm hne), List.count_replicate]
      simp
    · simp only [voteAll, h2]
      rw [h1]
      exact Function.update_same _ _ _

/-- Witness of C10: u1 votes three times at once in the freshly created sample poll. -/
theorem concurrent_exclusivity_witness :
    1 ≤ threeCalls.length ∧ createdTable "p1" = some createdItem ∧
      "u1" ∉ createdItem.voters ∧
      (∀ c ∈ threeCalls, c.1.ID = "p1" ∧ c.2 ∈ mapKeys createdItem.options) ∧
      (voteAll "u1" threeCalls createdTable).2 =
        [none, some ErrAlreadyVoted, some ErrAlreadyVoted] :=
  ⟨by decide, by decide, by decide, by decide,
    (concurrent_exclusivity "p1" "u1" threeCalls createdTable createdItem
      (by decide) (by decide) (by decide) (by decide)).1⟩

end poll
